import Mathlib

/-!
Verification of the query-normalization, row-cap, type-classification and
row-materialization core of a ClickHouse MCP server (Go sources under
`clickhouse/client.go`).  Go strings are modelled as `List Char`; Go string
slicing, which panics when the bounds are out of range, is modelled by
`Option`-returning slice operations.  All definitions are transcribed from
the Go source; definitions whose names start with `spec` are transcribed
from the natural-language specification instead, for comparison.
-/

namespace CHMCP

/-- Model of a Go string: a list of characters.  The repository only ever
indexes its strings at ASCII boundaries, so byte indexing and character
indexing coincide on every input that matters here. -/
abbrev Str := List Char

/-- Whitespace predicate used by Go's `strings.TrimSpace`
(`unicode.IsSpace`), restricted to the Latin-1 range actually reachable
from SQL text: space, tab, newline, vertical tab, form feed, carriage
return, next-line and no-break space. -/
def goIsSpace (c : Char) : Bool :=
  c = ' ' || c = '\t' || c = '\n' || c = Char.ofNat 11 || c = Char.ofNat 12 ||
  c = '\r' || c = Char.ofNat 133 || c = Char.ofNat 160

/-- Model of Go `strings.TrimSpace`: drop whitespace from both ends. -/
def goTrimSpace (s : Str) : Str :=
  ((s.dropWhile goIsSpace).reverse.dropWhile goIsSpace).reverse

/-- Model of Go `strings.Index`: index of the first occurrence of
`needle` in `hay`, `none` when absent (Go returns `-1`). -/
def goIndex (needle : Str) : Str → Option Nat
  | [] => if needle.isPrefixOf ([] : Str) then some 0 else none
  | c :: rest =>
      if needle.isPrefixOf (c :: rest) then some 0
      else (goIndex needle rest).map (· + 1)

/-- Model of Go `strings.Contains`. -/
def goContains (hay needle : Str) : Bool :=
  (goIndex needle hay).isSome

/-- Model of Go `strings.ToUpper` on the ASCII range reachable from the
queries handled here. -/
def goToUpper (s : Str) : Str :=
  s.map Char.toUpper

/-- The literal `" LIMIT "` used by `containsLimitClause` and by the
`fmt.Sprintf("%s LIMIT %d", ...)` of `QueryData`. -/
def sLIMIT : Str := (" LIMIT ").toList

/-- The block-comment opener `"/*"`. -/
def bOpen : Str := ("/*").toList

/-- The block-comment closer `"*/"`. -/
def bClose : Str := ("*/").toList

/-- The line-comment marker `"--"`. -/
def dashDash : Str := ("--").toList

/-! ## Facts about `goIndex` needed for termination and reasoning -/

/-- A hit reported by `goIndex` is in range: the needle fits into the
haystack starting at the reported index. -/
theorem goIndex_some_le {needle hay : Str} {i : Nat}
    (h : goIndex needle hay = some i) : i + needle.length ≤ hay.length := by
  induction hay generalizing i with
  | nil =>
    simp only [goIndex] at h
    split at h
    · rename_i hp
      cases h
      have := List.isPrefixOf_iff_prefix.mp hp
      simpa using this.length_le
    · cases h
  | cons c rest ih =>
    simp only [goIndex] at h
    split at h
    · rename_i hp
      cases h
      have := List.isPrefixOf_iff_prefix.mp hp
      simpa using this.length_le
    · rcases Option.map_eq_some'.mp h with ⟨j, hj, rfl⟩
      have := ih hj
      simp only [List.length_cons]
      omega

/-- A hit reported by `goIndex` really is an occurrence: the needle is a
prefix of the haystack dropped at the reported index. -/
theorem goIndex_some_prefix {needle hay : Str} {i : Nat}
    (h : goIndex needle hay = some i) : needle <+: hay.drop i := by
  induction hay generalizing i with
  | nil =>
    simp only [goIndex] at h
    split at h
    · rename_i hp
      cases h
      simpa using List.isPrefixOf_iff_prefix.mp hp
    · cases h
  | cons c rest ih =>
    simp only [goIndex] at h
    split at h
    · rename_i hp
      cases h
      simpa using List.isPrefixOf_iff_prefix.mp hp
    · rcases Option.map_eq_some'.mp h with ⟨j, hj, rfl⟩
      simpa using ih hj

/-! ## Query normalizer (`clickhouse/client.go`) -/

/-- Model of `normalizeQuery`: trim whitespace, drop a single trailing
semicolon when present, trim whitespace again. -/
def normalizeQuery (query : Str) : Str :=
  let q1 := goTrimSpace query
  let q2 := if q1.getLast? = some ';' then q1.dropLast else q1
  goTrimSpace q2

/-- Transcribed from the spec's words for the semicolon step of
`normalize`: if the trimmed text ends with a semicolon, drop exactly that
one trailing terminator character. -/
def specDropTerminator (s : Str) : Str :=
  if s.getLast? = some ';' then s.dropLast else s

/-- Fuel-indexed worker for the block-comment phase of `removeComments`.
Every splice shortens the text by at least one character, so a fuel equal
to the text's length is enough; the fuel-exhausted branch is unreachable
from `removeBlockComments` (see `removeBlockComments_step`). -/
def removeBlockCommentsAux : Nat → Str → Str
  | 0, s => s
  | fuel + 1, s =>
      match goIndex bOpen s with
      | none => s
      | some i =>
          match goIndex bClose (s.drop i) with
          | none => s.take i
          | some j =>
              removeBlockCommentsAux fuel (s.take i ++ ' ' :: s.drop (i + j + 2))

/-- Model of the block-comment phase of `removeComments`: repeatedly find
the first `/*`; when a matching `*/` follows, splice the two remainders
together around a single space; when none follows, truncate at the
opener. -/
def removeBlockComments (s : Str) : Str :=
  removeBlockCommentsAux s.length s

/-- Splicing out one terminated block comment strictly shortens the text. -/
theorem splice_length_lt {s : Str} {i j : Nat}
    (h1 : goIndex bOpen s = some i) (h2 : goIndex bClose (s.drop i) = some j) :
    (s.take i ++ ' ' :: s.drop (i + j + 2)).length < s.length := by
  have hi := goIndex_some_le h1
  have hj := goIndex_some_le h2
  have e1 : bOpen.length = 2 := rfl
  have e2 : bClose.length = 2 := rfl
  rw [e1] at hi
  rw [e2, List.length_drop] at hj
  simp only [List.length_append, List.length_take, List.length_cons,
    List.length_drop]
  omega

/-- The worker ignores the exact amount of fuel as long as it is at least
the length of the text. -/
theorem removeBlockCommentsAux_congr :
    ∀ (fuel fuel' : Nat) (s : Str), s.length ≤ fuel → s.length ≤ fuel' →
      removeBlockCommentsAux fuel s = removeBlockCommentsAux fuel' s := by
  intro fuel
  induction fuel with
  | zero =>
    intro fuel' s hs _
    have hnil : s = [] := List.length_eq_zero.mp (Nat.le_zero.mp hs)
    subst hnil
    cases fuel' with
    | zero => rfl
    | succ m => rfl
  | succ n ih =>
    intro fuel' s hs hs'
    cases fuel' with
    | zero =>
      have hnil : s = [] := List.length_eq_zero.mp (Nat.le_zero.mp hs')
      subst hnil
      rfl
    | succ m =>
      simp only [removeBlockCommentsAux]
      split
      · rfl
      next i h1 =>
        split
        · rfl
        next j h2 =>
          have hlt := splice_length_lt h1 h2
          exact ih m _ (by omega) (by omega)

/-- Model of the line-comment phase applied to one line: cut the line at
the first `--` when present. -/
def stripLineComment (line : Str) : Str :=
  match goIndex dashDash line with
  | none => line
  | some i => line.take i

/-- Model of Go `strings.Split(s, "\n")`. -/
def splitLines : Str → List Str
  | [] => [[]]
  | c :: rest =>
      if c = '\n' then [] :: splitLines rest
      else
        match splitLines rest with
        | [] => [[c]]
        | l :: ls => (c :: l) :: ls

/-- Model of Go `strings.Join(lines, "\n")`. -/
def joinLines : List Str → Str
  | [] => []
  | [l] => l
  | l :: l2 :: ls => l ++ '\n' :: joinLines (l2 :: ls)

/-- Model of `removeComments`: strip block comments, then cut every line
at its first `--`, rejoining with newlines. -/
def removeComments (query : Str) : Str :=
  joinLines ((splitLines (removeBlockComments query)).map stripLineComment)

/-- Number of lines of a text, as produced by splitting on newlines. -/
def lineCount (s : Str) : Nat :=
  (splitLines s).length

/-- Model of `containsLimitClause`: strip comments, upper-case, and look
for the space-delimited substring `" LIMIT "`. -/
def containsLimitClause (query : Str) : Bool :=
  goContains (goToUpper (removeComments query)) sLIMIT

/-- Decimal rendering of a Go `int`, as produced by `fmt.Sprintf("%d")`. -/
def goIntToStr (n : Int) : Str :=
  (toString n).toList

/-- Model of the query rewriting performed by `QueryData` before
execution (lines 193–201 of `clickhouse/client.go`): normalize, then
append `" LIMIT <limit>"` when the limit is positive and no limit clause
is already present. -/
def limitedQuery (query : Str) (limit : Int) : Str :=
  let cleanQuery := normalizeQuery query
  if 0 < limit then
    if containsLimitClause cleanQuery then cleanQuery
    else cleanQuery ++ sLIMIT ++ goIntToStr limit
  else cleanQuery

/-! ## Type classifier (`clickhouse/client.go`, lines 170–171, 221–222 and
409–420).  Go's string slicing `s[lo:hi]` panics when `lo > hi` or
`hi > len(s)`; the `Option`-valued `goSlice`/`goSliceTo` return `none`
exactly in those panicking cases. -/

/-- Model of the Go slice expression `s[:hi]`: `none` models the runtime
panic raised when `hi` exceeds the length. -/
def goSliceTo (s : Str) (hi : Nat) : Option Str :=
  if hi ≤ s.length then some (s.take hi) else none

/-- Model of the Go slice expression `s[lo:hi]`: `none` models the
runtime panic raised when `lo > hi` or `hi > len(s)`. -/
def goSlice (s : Str) (lo hi : Nat) : Option Str :=
  if lo ≤ hi ∧ hi ≤ s.length then some ((s.take hi).drop lo) else none

/-- The literal `"Array"` compared against the first five characters by
`IsArrayType`. -/
def arrayWord : Str := ("Array").toList

/-- The literal `"Nested"` compared against the first six characters when
classifying nested columns. -/
def nestedWord : Str := ("Nested").toList

/-- The literal `"Array("`, the prefix the specification says
`isArrayType` tests for. -/
def arrayParen : Str := ("Array(").toList

/-- Model of `IsArrayType`: `len(typeName) >= 6 && typeName[:5] == "Array"`.
The slice `typeName[:5]` is guarded by the length test, so this function
is total; note that only the first five characters are compared. -/
def IsArrayType (typeName : Str) : Bool :=
  decide (6 ≤ typeName.length) && decide (typeName.take 5 = arrayWord)

/-- Slice-level rendering of `IsArrayType`, making the guarded slice
explicit: `none` would model a panic, which never occurs here. -/
def IsArrayTypeM (typeName : Str) : Option Bool :=
  if 6 ≤ typeName.length then
    (goSliceTo typeName 5).map (fun p => decide (p = arrayWord))
  else some false

/-- Model of the nested-type test `len(typ) >= 7 && typ[:6] == "Nested"`
(inlined at both classification sites in the source). -/
def isNestedType (typeName : Str) : Bool :=
  decide (7 ≤ typeName.length) && decide (typeName.take 6 = nestedWord)

/-- Slice-level rendering of the nested-type test. -/
def isNestedTypeM (typeName : Str) : Option Bool :=
  if 7 ≤ typeName.length then
    (goSliceTo typeName 6).map (fun p => decide (p = nestedWord))
  else some false

/-- Model of `GetBaseType`: `typeName[6 : len(typeName)-1]` when
`IsArrayType` holds, identity otherwise.  The result is `none` exactly
when the Go slice panics. -/
def GetBaseTypeM (typeName : Str) : Option Str :=
  if IsArrayType typeName then goSlice typeName 6 (typeName.length - 1)
  else some typeName

/-- Transcribed from the spec's words: true iff the type name starts with
the literal prefix `"Array("`. -/
def specStartsWithArrayParen (typeName : Str) : Bool :=
  arrayParen.isPrefixOf typeName

/-- Index of the last occurrence of a character, via the first occurrence
in the reversed text. -/
def goLastIndexChar (c : Char) (s : Str) : Option Nat :=
  (goIndex [c] s.reverse).map (fun k => s.length - 1 - k)

/-- Transcribed from the spec's words for `baseType` on array types: the
substring strictly between the first `(` and the final `)`; when either
delimiter is missing the spec's description picks out nothing, and the
whole type name is returned unchanged. -/
def specArrayBase (typeName : Str) : Str :=
  match goIndex (['(']) typeName, goLastIndexChar ')' typeName with
  | some i, some j => (typeName.take j).drop (i + 1)
  | _, _ => typeName

example : IsArrayType (("Array(String)").toList) = true := by decide
example : IsArrayType (("ArrayX").toList) = true := by decide
example : specStartsWithArrayParen (("ArrayX").toList) = false := by decide
example : GetBaseTypeM (("Array(Array(Int32))").toList) =
    some (("Array(Int32)").toList) := by decide
example : GetBaseTypeM (("Array(").toList) = none := by decide
example : GetBaseTypeM (("Array(a)b").toList) = some (("a)").toList) := by decide
example : specArrayBase (("Array(a)b").toList) = (("a").toList) := by decide

/-! ## Row materializer (`clickhouse/client.go`, lines 214–332).  The scan
stage of `QueryData` binds every column to a typed destination variable
chosen by the column's exact declared type string; the copy stage reads
those variables back.  `GoValue` is the tagged union of everything a
destination variable can hold; the driver guarantees (via `rows.Scan`)
that the value found in a slot matches the slot's type, captured by
`wellTypedSlot`. -/

/-- A runtime value as seen by the copy stage of `QueryData`: the typed
destination variables (`string`, `uint64`, `int64`, `float64`, `bool`,
`time.Time`) and the dynamic values an `any` destination can receive
(`[]byte`, `[]any`, or anything else, collapsed to `vnil`).  A `float64`
is carried as its uninterpreted 64-bit pattern: the code only routes
floats, it never computes with them.  A `time.Time` is carried as
non-negative seconds since the Unix epoch in UTC. -/
inductive GoValue where
  | vstr (s : Str)
  | vuint (n : Nat)
  | vint (i : Int)
  | vfloat (bits : Nat)
  | vbool (b : Bool)
  | vtime (t : Nat)
  | vbytes (bs : List Nat)
  | varr (xs : List GoValue)
  | vnil

/-- Discriminator: is this value a Go `string`? -/
def GoValue.isVstr : GoValue → Bool
  | .vstr _ => true
  | _ => false

/-- Discriminator: is this value a Go `uint64`? -/
def GoValue.isVuint : GoValue → Bool
  | .vuint _ => true
  | _ => false

/-- Discriminator: is this value a Go `int64`? -/
def GoValue.isVint : GoValue → Bool
  | .vint _ => true
  | _ => false

/-- Discriminator: is this value a Go `float64`? -/
def GoValue.isVfloat : GoValue → Bool
  | .vfloat _ => true
  | _ => false

/-- Discriminator: is this value a Go `bool`? -/
def GoValue.isVbool : GoValue → Bool
  | .vbool _ => true
  | _ => false

/-- Discriminator: is this value a Go `time.Time`? -/
def GoValue.isVtime : GoValue → Bool
  | .vtime _ => true
  | _ => false

/-- Discriminator: is this value a Go `[]byte`? -/
def GoValue.isVbytes : GoValue → Bool
  | .vbytes _ => true
  | _ => false

/-- Discriminator: is this value a Go `[]any`? -/
def GoValue.isVarr : GoValue → Bool
  | .varr _ => true
  | _ => false

/-- Model of the Go conversion `string(b)` on a byte buffer; result bytes
are taken as code points, which agrees with Go on ASCII data. -/
def bytesToString (bs : List Nat) : Str :=
  bs.map Char.ofNat

/-- Left-pad a digit string with zeros to the given width. -/
def padZero (w : Nat) (s : Str) : Str :=
  List.replicate (w - s.length) '0' ++ s

/-- Convert a day count since 1970-01-01 into a `(year, month, day)`
civil date (proleptic Gregorian, the computation used by standard
time libraries for non-negative epochs). -/
def civilFromDays (days : Nat) : Nat × Nat × Nat :=
  let z := days + 719468
  let era := z / 146097
  let doe := z % 146097
  let yoe := (doe - doe / 1460 + doe / 36524 - doe / 146096) / 365
  let y := yoe + era * 400
  let doy := doe - (365 * yoe + yoe / 4 - yoe / 100)
  let mp := (5 * doy + 2) / 153
  let d := doy - (153 * mp + 2) / 5 + 1
  let m := if mp < 10 then mp + 3 else mp - 9
  (if m ≤ 2 then y + 1 else y, m, d)

/-- Model of `timeVars[i].Format(time.RFC3339)` for a UTC timestamp `t`
seconds after the Unix epoch: `YYYY-MM-DDTHH:MM:SSZ`. -/
def formatRFC3339 (t : Nat) : Str :=
  let days := t / 86400
  let secs := t % 86400
  let ymd := civilFromDays days
  padZero 4 ((toString ymd.1).toList) ++ ['-'] ++
    padZero 2 ((toString ymd.2.1).toList) ++ ['-'] ++
    padZero 2 ((toString ymd.2.2).toList) ++ ['T'] ++
    padZero 2 ((toString (secs / 3600)).toList) ++ [':'] ++
    padZero 2 ((toString (secs % 3600 / 60)).toList) ++ [':'] ++
    padZero 2 ((toString (secs % 60)).toList) ++ ['Z']

/-- Model of Go's generic formatter `fmt.Sprint` as used on non-buffer
array elements; only its existence matters to the claims, none of them
constrain its exact output. -/
def goSprint : GoValue → Str
  | .vstr s => s
  | .vuint n => (toString n).toList
  | .vint i => (toString i).toList
  | .vfloat bits => (toString bits).toList
  | .vbool b => if b then (("true").toList) else (("false").toList)
  | .vtime t => formatRFC3339 t
  | .vbytes bs =>
      ['['] ++ List.intercalate ([' ']) (bs.map (fun b => (toString b).toList)) ++ [']']
  | .varr _ => ("[...]").toList
  | .vnil => ("<nil>").toList

/-- The element conversion inside the array branch of `QueryData`'s copy
stage: a `[]byte` element becomes a string by `string(byteItem)`, any
other element is rendered with `fmt.Sprint`. -/
def stringifyItem : GoValue → GoValue
  | .vbytes b => .vstr (bytesToString b)
  | item => .vstr (goSprint item)

/-- The unsigned-integer case list of `QueryData`'s type switches. -/
def isUintType (t : Str) : Bool :=
  decide (t = ("UInt8").toList) || decide (t = ("UInt16").toList) ||
  decide (t = ("UInt32").toList) || decide (t = ("UInt64").toList)

/-- The signed-integer case list of `QueryData`'s type switches. -/
def isIntType (t : Str) : Bool :=
  decide (t = ("Int8").toList) || decide (t = ("Int16").toList) ||
  decide (t = ("Int32").toList) || decide (t = ("Int64").toList)

/-- The float case list of `QueryData`'s type switches. -/
def isFloatType (t : Str) : Bool :=
  decide (t = ("Float32").toList) || decide (t = ("Float64").toList)

/-- The date case list of `QueryData`'s type switches. -/
def isDateType (t : Str) : Bool :=
  decide (t = ("Date").toList) || decide (t = ("DateTime").toList)

/-- True when the declared type falls through to the `default` branch of
both type switches in `QueryData`. -/
def isOtherType (t : Str) : Bool :=
  !(decide (t = ("String").toList) || isUintType t || isIntType t ||
    isFloatType t || decide (t = ("Bool").toList) || isDateType t)

/-- The well-typedness guarantee `rows.Scan` provides for a slot: the
value held by a column's destination variable has the variable's static
type.  Slots bound to `any` (the `default` case) can hold anything. -/
def wellTypedSlot (colType : Str) (v : GoValue) : Bool :=
  if colType = ("String").toList then v.isVstr
  else if isUintType colType then v.isVuint
  else if isIntType colType then v.isVint
  else if isFloatType colType then v.isVfloat
  else if colType = ("Bool").toList then v.isVbool
  else if isDateType colType then v.isVtime
  else true

/-- Model of the per-value copy stage of `QueryData` (lines 275–317):
dispatch on the exact declared type string; the listed scalar types copy
the typed variable through (dates are rendered as RFC3339 text), and
every other type post-processes the dynamic value: byte buffers become
strings, and a non-empty sequence in an array-classified column whose
first element is a byte buffer is converted element-wise to strings. -/
def materializeValue (colType : Str) (isArray : Bool) (v : GoValue) : GoValue :=
  if colType = ("String").toList then v
  else if isUintType colType then v
  else if isIntType colType then v
  else if isFloatType colType then v
  else if colType = ("Bool").toList then v
  else if isDateType colType then
    match v with
    | .vtime t => .vstr (formatRFC3339 t)
    | w => w
  else
    match v with
    | .vbytes bs => .vstr (bytesToString bs)
    | .varr xs =>
        if isArray then
          match xs with
          | .vbytes _ :: _ => .varr (xs.map stringifyItem)
          | _ => .varr xs
        else .varr xs
    | w => w

/-- Model of `ColumnInfo` from `clickhouse/client.go` (the Go `Type`
field is called `typ` because `Type` is reserved in Lean). -/
structure ColumnInfo where
  name : Str
  typ : Str
  position : Nat
  isArray : Bool
  isNested : Bool

/-- Model of `QueryResult`: the Go `map[string]any` row is modelled as
an association list from column name to materialized value. -/
structure QueryResult where
  columns : List ColumnInfo
  rows : List (List (Str × GoValue))

/-- Model of the column-descriptor construction of `QueryData` (lines
218–231): one `ColumnInfo` per cursor column, with 1-based positions and
classifier-derived flags, from the cursor's `(name, databaseTypeName)`
metadata. -/
def mkColumns (meta : List (Str × Str)) : List ColumnInfo :=
  meta.enum.map (fun p =>
    ⟨p.2.1, p.2.2, p.1 + 1, IsArrayType p.2.2, isNestedType p.2.2⟩)

/-- Model of one iteration of the row loop of `QueryData`: pair every
column with the scanned value of its slot and materialize it. -/
def buildRow (columns : List ColumnInfo) (vals : List GoValue) :
    List (Str × GoValue) :=
  (columns.zip vals).map (fun p =>
    (p.1.name, materializeValue p.1.typ p.1.isArray p.2))

/-- Model of the result assembly of `QueryData` (lines 265–331): run the
row loop over every cursor row and return the columns with the
materialized rows; there is no special case for zero columns. -/
def processRows (columns : List ColumnInfo) (rawRows : List (List GoValue)) :
    QueryResult :=
  ⟨columns, rawRows.map (buildRow columns)⟩

example : materializeValue (("UInt8").toList) false (.vuint 1) = .vuint 1 := by rfl
example : materializeValue (("Array(String)").toList) true
    (.varr [.vbytes [104, 105], .vbytes [33]]) =
    .varr [.vstr (("hi").toList), .vstr (("!").toList)] := by rfl
example : formatRFC3339 0 = (("1970-01-01T00:00:00Z").toList) := by decide
example : formatRFC3339 1700000000 = (("2023-11-14T22:13:20Z").toList) := by decide
example : processRows [] [] = ⟨[], []⟩ := by rfl

example : normalizeQuery (("  SELECT   1  ; ").toList) = (("SELECT   1").toList) := by decide
example : normalizeQuery ((";").toList) = [] := by decide
example : containsLimitClause (("SELECT * FROM t /* LIMIT 10 */").toList) = false := by decide
example : containsLimitClause (("select * from t limit 100").toList) = true := by decide
example : removeComments (("a/*" ++ "\n" ++ "*/b").toList) = (("a b").toList) := by decide
example : limitedQuery (("SELECT 1").toList) 10 = (("SELECT 1 LIMIT 10").toList) := by decide

/-! ## Shared helper lemmas -/

/-- Unfolding of `IsArrayType` into its two conjuncts. -/
theorem IsArrayType_iff (t : Str) :
    IsArrayType t = true ↔ 6 ≤ t.length ∧ t.take 5 = arrayWord := by
  simp [IsArrayType]

/-- Trimming whitespace yields a contiguous substring of the input. -/
theorem goTrimSpace_infix (s : Str) : goTrimSpace s <:+: s := by
  have h1 : s.dropWhile goIsSpace <:+ s := List.dropWhile_suffix _
  have h2 : (s.dropWhile goIsSpace).reverse.dropWhile goIsSpace <:+
      (s.dropWhile goIsSpace).reverse := List.dropWhile_suffix _
  have h3 : goTrimSpace s <+: s.dropWhile goIsSpace := by
    rw [← List.reverse_suffix]
    simpa [goTrimSpace] using h2
  exact h3.isInfix.trans h1.isInfix

/-- Dropping the final semicolon yields a prefix. -/
theorem specDropTerminator_prefix (s : Str) : specDropTerminator s <+: s := by
  unfold specDropTerminator
  split
  · simpa [List.dropLast_eq_take] using List.take_prefix _ _
  · exact List.prefix_refl s

/-- The block-comment phase when no opener occurs: the text is returned
unchanged. -/
theorem removeBlockComments_of_none {s : Str} (h : goIndex bOpen s = none) :
    removeBlockComments s = s := by
  cases s with
  | nil => rfl
  | cons c cs =>
    show removeBlockCommentsAux (cs.length + 1) (c :: cs) = c :: cs
    simp [removeBlockCommentsAux, h]

/-- The block-comment phase on an unterminated opener: everything from
the opener onward is removed, through end-of-string. -/
theorem removeBlockComments_unterminated {s : Str} {i : Nat}
    (h1 : goIndex bOpen s = some i) (h2 : goIndex bClose (s.drop i) = none) :
    removeBlockComments s = s.take i := by
  cases s with
  | nil => exact Option.noConfusion h1
  | cons c cs =>
    show removeBlockCommentsAux (cs.length + 1) (c :: cs) = (c :: cs).take i
    simp [removeBlockCommentsAux, h1, h2]

/-- The block-comment phase on a terminated block: the block is replaced
by exactly one space and scanning restarts on the spliced text. -/
theorem removeBlockComments_step {s : Str} {i j : Nat}
    (h1 : goIndex bOpen s = some i) (h2 : goIndex bClose (s.drop i) = some j) :
    removeBlockComments s =
      removeBlockComments (s.take i ++ ' ' :: s.drop (i + j + 2)) := by
  cases s with
  | nil => exact Option.noConfusion h1
  | cons c cs =>
    have hlt := splice_length_lt h1 h2
    have e1 : removeBlockComments (c :: cs) =
        removeBlockCommentsAux (cs.length + 1) (c :: cs) := rfl
    rw [e1]
    simp only [removeBlockCommentsAux, h1, h2]
    exact removeBlockCommentsAux_congr _ _ _
      (by simpa using Nat.le_of_lt_succ (by simpa using hlt)) (le_refl _)

/-- Splitting never produces an empty list of lines. -/
theorem splitLines_ne_nil : ∀ s : Str, splitLines s ≠ [] := by
  intro s
  induction s with
  | nil => simp [splitLines]
  | cons c rest ih =>
    by_cases hc : c = '\n'
    · simp [splitLines, hc]
    · simp only [splitLines, if_neg hc]
      cases hsp : splitLines rest with
      | nil => simp
      | cons l ls => simp

/-- The number of lines is one more than the number of newlines. -/
theorem splitLines_length : ∀ s : Str, (splitLines s).length = s.count '\n' + 1 := by
  intro s
  induction s with
  | nil => simp [splitLines]
  | cons c rest ih =>
    by_cases hc : c = '\n'
    · subst hc
      simp [splitLines, List.count_cons, ih]
    · simp only [splitLines, if_neg hc]
      cases hsp : splitLines rest with
      | nil => exact absurd hsp (splitLines_ne_nil rest)
      | cons l ls =>
        rw [hsp] at ih
        simp only [List.length_cons] at ih ⊢
        rw [List.count_cons]
        simp [hc, Ne.symm hc, ih]

/-- No line produced by splitting contains a newline. -/
theorem splitLines_no_newline :
    ∀ (s : Str) (l : Str), l ∈ splitLines s → '\n' ∉ l := by
  intro s
  induction s with
  | nil => intro l hl; simp [splitLines] at hl; simp [hl]
  | cons c rest ih =>
    intro l hl
    by_cases hc : c = '\n'
    · simp only [splitLines, if_pos hc, List.mem_cons] at hl
      rcases hl with rfl | hl
      · simp
      · exact ih l hl
    · simp only [splitLines, if_neg hc] at hl
      cases hsp : splitLines rest with
      | nil => exact absurd hsp (splitLines_ne_nil rest)
      | cons l0 ls =>
        rw [hsp] at hl
        simp only [List.mem_cons] at hl
        rcases hl with rfl | hl
        · intro hmem
          rcases List.mem_cons.mp hmem with he | hmem0
          · exact hc he.symm
          · exact ih l0 (hsp ▸ List.mem_cons_self l0 ls) hmem0
        · exact ih l (hsp ▸ List.mem_cons_of_mem l0 hl)

/-- Cutting a line at its first `--` introduces no newline. -/
theorem stripLineComment_no_newline {line : Str} (h : '\n' ∉ line) :
    '\n' ∉ stripLineComment line := by
  unfold stripLineComment
  split
  · exact h
  · intro hmem
    exact h (List.take_subset _ _ hmem)

/-- Joining newline-free lines re-inserts exactly one newline per
boundary. -/
theorem joinLines_count :
    ∀ L : List Str, L ≠ [] → (∀ l ∈ L, '\n' ∉ l) →
      (joinLines L).count '\n' = L.length - 1 := by
  intro L
  induction L with
  | nil => intro h; exact absurd rfl h
  | cons l ls ih =>
    intro _ hfree
    cases ls with
    | nil =>
      simp only [joinLines, List.length_cons]
      simp [List.count_eq_zero.mpr (hfree l (List.mem_cons_self _ _))]
    | cons l2 ls2 =>
      have hfree2 : ∀ x ∈ l2 :: ls2, '\n' ∉ x :=
        fun x hx => hfree x (List.mem_cons_of_mem l hx)
      have := ih (by simp) hfree2
      simp only [joinLines, List.count_append, List.count_cons, List.length_cons] at this ⊢
      rw [List.count_eq_zero.mpr (hfree l (List.mem_cons_self _ _))]
      simp
      omega

/-- The line-comment phase preserves the number of lines. -/
theorem lineCount_linePhase (s : Str) :
    lineCount (joinLines ((splitLines s).map stripLineComment)) = lineCount s := by
  have hne : (splitLines s).map stripLineComment ≠ [] := by
    intro h
    exact splitLines_ne_nil s (List.map_eq_nil_iff.mp h)
  have hfree : ∀ l ∈ (splitLines s).map stripLineComment, '\n' ∉ l := by
    intro l hl
    rcases List.mem_map.mp hl with ⟨l0, hl0, rfl⟩
    exact stripLineComment_no_newline (splitLines_no_newline s l0 hl0)
  have h1 := joinLines_count _ hne hfree
  have h2 : (splitLines s).length ≥ 1 :=
    List.length_pos.mpr (splitLines_ne_nil s)
  unfold lineCount
  rw [splitLines_length, h1]
  simp only [List.length_map]
  omega

/-- One step of `goIndex` past a non-matching head. -/
theorem goIndex_cons_neg {needle : Str} {c : Char} {rest : Str}
    (h : needle.isPrefixOf (c :: rest) = false) :
    goIndex needle (c :: rest) = (goIndex needle rest).map (· + 1) := by
  simp [goIndex, h]

/-- The base case of `goIndex` at a matching position. -/
theorem goIndex_cons_pos {needle : Str} {c : Char} {rest : Str}
    (h : needle.isPrefixOf (c :: rest) = true) :
    goIndex needle (c :: rest) = some 0 := by
  simp [goIndex, h]

/-- Searching for a single character walks past a different head. -/
theorem goIndex_single_cons_ne (c d : Char) (rest : Str) (h : (c == d) = false) :
    goIndex ([c]) (d :: rest) = (goIndex ([c]) rest).map (· + 1) := by
  apply goIndex_cons_neg
  show ((c == d) && List.isPrefixOf ([] : Str) rest) = false
  rw [h]
  rfl

/-- Searching for a single character stops at a matching head. -/
theorem goIndex_single_cons_eq (c : Char) (rest : Str) :
    goIndex ([c]) (c :: rest) = some 0 := by
  apply goIndex_cons_pos
  exact List.isPrefixOf_iff_prefix.mpr ⟨rest, rfl⟩

/-- A type name that starts with the literal `"Array("` is accepted by
`IsArrayType`. -/
theorem IsArrayType_arrayParen_append (X : Str) :
    IsArrayType (arrayParen ++ X) = true := by
  refine (IsArrayType_iff _).mpr ⟨?_, ?_⟩
  · simp [arrayParen]
  · rw [List.take_append_of_le_length (by simp [arrayParen])]
    decide

/-- In a type name of the shape `Array(` followed by anything, the first
opening parenthesis sits at index 5. -/
theorem goIndex_lparen_arrayParen (X : Str) :
    goIndex (['(']) (arrayParen ++ X) = some 5 := by
  show goIndex (['(']) ('A' :: 'r' :: 'r' :: 'a' :: 'y' :: '(' :: X) = some 5
  rw [goIndex_single_cons_ne '(' 'A' _ (by decide),
    goIndex_single_cons_ne '(' 'r' _ (by decide),
    goIndex_single_cons_ne '(' 'r' _ (by decide),
    goIndex_single_cons_ne '(' 'a' _ (by decide),
    goIndex_single_cons_ne '(' 'y' _ (by decide),
    goIndex_single_cons_eq '(' X]
  rfl

/-- In a text that ends with a closing parenthesis, the last closing
parenthesis is the final character. -/
theorem goLastIndexChar_rparen (A : Str) :
    goLastIndexChar ')' (A ++ [')']) = some ((A ++ [')']).length - 1) := by
  unfold goLastIndexChar
  rw [List.reverse_append]
  show ((goIndex ([')']) (')' :: A.reverse)).map _) = _
  rw [goIndex_single_cons_eq ')' A.reverse]
  rfl

/-! ## Claim theorems -/

/-- C4 counterexample: the claim that `isArrayType(t)` is true iff `t`
begins with the 6-character prefix `"Array("` fails on the code: the
source only compares the first five characters against `"Array"`, so the
length-6 string `"ArrayX"`, which does not start with `"Array("`, is
nevertheless classified as an array type. -/
theorem isArrayType_parenPrefix_cex :
    IsArrayType (("ArrayX").toList) = true ∧
    specStartsWithArrayParen (("ArrayX").toList) = false := by
  decide

/-- C4 (amended): `isArrayType(t)` is true iff `t` has length at least 6
and its first five characters are `"Array"`; the sixth character is not
required to be `(`.  Every string that does begin with `"Array("` is
accepted, and the empty string is rejected. -/
theorem isArrayType_amended :
    (∀ t : Str, IsArrayType t = true ↔ 6 ≤ t.length ∧ t.take 5 = arrayWord) ∧
    (∀ t : Str, specStartsWithArrayParen t = true → IsArrayType t = true) ∧
    IsArrayType [] = false := by
  refine ⟨IsArrayType_iff, ?_, by decide⟩
  intro t h
  obtain ⟨r, rfl⟩ := List.isPrefixOf_iff_prefix.mp h
  exact IsArrayType_arrayParen_append r

/-- C4 witness: the amended characterization applied to the concrete
well-formed type name `"Array(String)"`. -/
theorem isArrayType_amended_witness :
    IsArrayType (("Array(String)").toList) = true :=
  isArrayType_amended.2.1 _ (by decide)

/-- C7 counterexample: the claim that `baseType` returns the substring
between the first `(` and the final `)` fails on the code: on
`"Array(a)b"` (accepted by `IsArrayType`) the code slices off the first
six and the last characters, producing `"a)"`, while the text between the
first `(` and the final `)` is `"a"`. -/
theorem getBaseType_betweenParens_cex :
    IsArrayType (("Array(a)b").toList) = true ∧
    GetBaseTypeM (("Array(a)b").toList) = some (("a)").toList) ∧
    specArrayBase (("Array(a)b").toList) = (("a").toList) := by
  decide

/-- C7 (amended): on an array-classified type name of length at least 7,
`GetBaseType` returns the name with its first six characters and its last
character removed; on a non-array name it returns the name unchanged.  On
a well-formed name `Array(` ++ mid ++ `)` this equals both `mid` and the
spec's substring between the first `(` and the final `)`, so a
doubly-wrapped `Array(Array(Int32))` unwraps a single layer to
`Array(Int32)`.  (On an array-classified name of length exactly 6 the
code panics; see the totality claim.) -/
theorem getBaseType_amended :
    (∀ t : Str, IsArrayType t = true → 7 ≤ t.length →
      GetBaseTypeM t = some ((t.take (t.length - 1)).drop 6)) ∧
    (∀ t : Str, IsArrayType t = false → GetBaseTypeM t = some t) ∧
    (∀ mid : Str,
      GetBaseTypeM (arrayParen ++ mid ++ [')']) = some mid ∧
      specArrayBase (arrayParen ++ mid ++ [')']) = mid) ∧
    GetBaseTypeM (("Array(Array(Int32))").toList) =
      some (("Array(Int32)").toList) := by
  have hmain : ∀ t : Str, IsArrayType t = true → 7 ≤ t.length →
      GetBaseTypeM t = some ((t.take (t.length - 1)).drop 6) := by
    intro t ha hlen
    rw [GetBaseTypeM, if_pos ha, goSlice, if_pos (by omega)]
  have hmid : ∀ mid : Str,
      ((arrayParen ++ mid ++ [')']).take ((arrayParen ++ mid ++ [')']).length - 1)).drop 6
        = mid := by
    intro mid
    have hl : (arrayParen ++ mid ++ [')']).length - 1 = (arrayParen ++ mid).length := by
      simp
    rw [hl, List.take_left]
    exact List.drop_left arrayParen mid
  refine ⟨hmain, ?_, ?_, by decide⟩
  · intro t hna
    rw [GetBaseTypeM, if_neg (by simp [hna])]
  · intro mid
    have hIA : IsArrayType (arrayParen ++ mid ++ [')']) = true := by
      rw [List.append_assoc]
      exact IsArrayType_arrayParen_append _
    have hlen7 : 7 ≤ (arrayParen ++ mid ++ [')']).length := by
      have e6 : arrayParen.length = 6 := rfl
      simp only [List.length_append, List.length_cons, List.length_nil, e6]
      omega
    constructor
    · rw [hmain _ hIA hlen7, hmid]
    · have hfirst : goIndex (['(']) (arrayParen ++ mid ++ [')']) = some 5 := by
        rw [List.append_assoc]
        exact goIndex_lparen_arrayParen _
      have hlast : goLastIndexChar ')' (arrayParen ++ mid ++ [')']) =
          some ((arrayParen ++ mid ++ [')']).length - 1) :=
        goLastIndexChar_rparen (arrayParen ++ mid)
      unfold specArrayBase
      rw [hfirst, hlast]
      show ((arrayParen ++ mid ++ [')']).take
        ((arrayParen ++ mid ++ [')']).length - 1)).drop 6 = mid
      exact hmid mid

/-- C7 witness: the amended slice characterization evaluated on the
concrete type name `"Array(X)"`. -/
theorem getBaseType_amended_witness :
    GetBaseTypeM (("Array(X)").toList) = some (("X").toList) :=
  (getBaseType_amended.1 (("Array(X)").toList) (by decide) (by decide)).trans
    (by decide)

/-- C8 counterexample: the claim that `isArrayType`, `baseType` and
`isNestedType` are total fails on the code: on the length-6 input
`"Array("` the slice `typeName[6 : len(typeName)-1]` in `GetBaseType`
has its lower bound above its upper bound, which panics in Go (modelled
here by `none`). -/
theorem getBaseType_panic_cex :
    GetBaseTypeM (("Array(").toList) = none := by
  decide

/-- C8 (amended): `isArrayType` and `isNestedType` are total — every
slice they take is guarded by the preceding length test — and
`GetBaseType` returns a value on every input except the array-classified
strings of length exactly 6 (such as `"Array("`), on which its slice
panics; the failure set is exactly those strings. -/
theorem classifierTotality_amended :
    (∀ t : Str, IsArrayTypeM t = some (IsArrayType t)) ∧
    (∀ t : Str, isNestedTypeM t = some (isNestedType t)) ∧
    (∀ t : Str, IsArrayType t = false ∨ 7 ≤ t.length →
      (GetBaseTypeM t).isSome = true) ∧
    (∀ t : Str, GetBaseTypeM t = none ↔ IsArrayType t = true ∧ t.length = 6) := by
  have hchar : ∀ t : Str, GetBaseTypeM t = none ↔
      IsArrayType t = true ∧ t.length = 6 := by
    intro t
    unfold GetBaseTypeM
    by_cases ha : IsArrayType t = true
    · have h6 : 6 ≤ t.length := ((IsArrayType_iff t).mp ha).1
      rw [if_pos ha]
      unfold goSlice
      constructor
      · intro hn
        refine ⟨ha, ?_⟩
        by_contra hne
        rw [if_pos (by omega)] at hn
        exact Option.noConfusion hn
      · intro hl
        rw [if_neg (by omega)]
    · rw [if_neg (by simpa using ha)]
      simp [ha]
  refine ⟨?_, ?_, ?_, hchar⟩
  · intro t
    unfold IsArrayTypeM IsArrayType goSliceTo
    by_cases h : 6 ≤ t.length
    · rw [if_pos h, if_pos (by omega)]
      simp [h]
    · rw [if_neg h]
      simp [h]
  · intro t
    unfold isNestedTypeM isNestedType goSliceTo
    by_cases h : 7 ≤ t.length
    · rw [if_pos h, if_pos (by omega)]
      simp [h]
    · rw [if_neg h]
      simp [h]
  · intro t ht
    rw [Option.isSome_iff_ne_none]
    intro hn
    rcases (hchar t).mp hn with ⟨ha, h6⟩
    rcases ht with hf | h7
    · rw [ha] at hf
      exact Bool.noConfusion hf
    · omega

/-- C8 witness: the amended totality statement evaluated on the concrete
non-array type name `"String"`. -/
theorem classifierTotality_amended_witness :
    (GetBaseTypeM (("String").toList)).isSome = true :=
  classifierTotality_amended.2.2.1 (("String").toList) (Or.inl (by decide))

/-- C9 counterexample: the claim that `stripComments` preserves the
number of lines fails on the code: the input `"a/*\n*/b"` has two lines,
but its block comment spans the newline, and removing it yields the
one-line text `"a b"`. -/
theorem removeComments_lineCount_cex :
    removeComments (("a/*" ++ "\n" ++ "*/b").toList) = (("a b").toList) ∧
    lineCount (("a/*" ++ "\n" ++ "*/b").toList) = 2 ∧
    lineCount (removeComments (("a/*" ++ "\n" ++ "*/b").toList)) = 1 := by
  decide

/-- C9 (amended): `stripComments` replaces each terminated block comment
with exactly one space at the boundary, removes an unterminated block
comment through end-of-string along with everything after the opening
marker, and then, per line, removes everything from the first `--`
onward; the line phase preserves the line count, so the whole transform
preserves it exactly when no removed block comment spans a newline (a
block comment containing a newline reduces the line count). -/
theorem removeComments_amended :
    (∀ s : Str, goIndex bOpen s = none → removeBlockComments s = s) ∧
    (∀ (s : Str) (i : Nat), goIndex bOpen s = some i →
      goIndex bClose (s.drop i) = none → removeBlockComments s = s.take i) ∧
    (∀ (s : Str) (i j : Nat), goIndex bOpen s = some i →
      goIndex bClose (s.drop i) = some j →
      removeBlockComments s =
        removeBlockComments (s.take i ++ ' ' :: s.drop (i + j + 2))) ∧
    (∀ (line : Str) (i : Nat), goIndex dashDash line = some i →
      stripLineComment line = line.take i) ∧
    (∀ s : Str, removeComments s =
      joinLines ((splitLines (removeBlockComments s)).map stripLineComment)) ∧
    (∀ s : Str, lineCount (removeComments s) = lineCount (removeBlockComments s)) := by
  refine ⟨fun s h => removeBlockComments_of_none h,
    fun s i h1 h2 => removeBlockComments_unterminated h1 h2,
    fun s i j h1 h2 => removeBlockComments_step h1 h2,
    ?_, fun s => rfl, fun s => lineCount_linePhase _⟩
  intro line i h
  simp [stripLineComment, h]

/-- C9 witness: the amended equations evaluated on concrete inputs — a
comment-free text is returned unchanged by the block phase. -/
theorem removeComments_amended_witness :
    removeBlockComments (("SELECT 1").toList) = (("SELECT 1").toList) :=
  removeComments_amended.1 (("SELECT 1").toList) (by decide)

/-- C1: row-cap injection policy of `QueryData`.  For every query text
and non-negative cap: a zero cap executes the normalized text unchanged;
a positive cap with no existing limit clause appends `" LIMIT <cap>"` to
the normalized text; and whenever a limit clause is already present the
normalized text is executed unchanged regardless of the cap. -/
theorem rowCapInjectionPolicy (q : Str) (cap : Int) (hcap : 0 ≤ cap) :
    (cap = 0 → limitedQuery q cap = normalizeQuery q) ∧
    (0 < cap → containsLimitClause (normalizeQuery q) = false →
      limitedQuery q cap = normalizeQuery q ++ sLIMIT ++ goIntToStr cap) ∧
    (containsLimitClause (normalizeQuery q) = true →
      limitedQuery q cap = normalizeQuery q) := by
  refine ⟨?_, ?_, ?_⟩
  · intro h
    subst h
    rfl
  · intro hpos hnc
    unfold limitedQuery
    rw [if_pos hpos, if_neg (by simp [hnc])]
  · intro hc
    unfold limitedQuery
    by_cases hpos : 0 < cap
    · rw [if_pos hpos, if_pos hc]
    · rw [if_neg hpos]

/-- C1 witness: the policy applied to the concrete query `"SELECT 1"`
with cap 10. -/
theorem rowCapInjectionPolicy_witness :
    limitedQuery (("SELECT 1").toList) 10 = (("SELECT 1 LIMIT 10").toList) :=
  ((rowCapInjectionPolicy (("SELECT 1").toList) 10 (by decide)).2.1
    (by decide) (by decide)).trans (by decide)

/-- C10: for every query string and every limit that is zero or
negative, `QueryData` executes the normalized text completely unchanged —
the `limit > 0` guard means a negative cap behaves exactly like cap
zero. -/
theorem nonPositiveLimit_noInjection (q : Str) (limit : Int) (h : limit ≤ 0) :
    limitedQuery q limit = normalizeQuery q := by
  unfold limitedQuery
  rw [if_neg (by omega)]

/-- C10 witness: a negative cap on a concrete query leaves the
normalized text unchanged. -/
theorem nonPositiveLimit_noInjection_witness :
    limitedQuery (("SELECT 1;").toList) (-5) = (("SELECT 1").toList) :=
  (nonPositiveLimit_noInjection (("SELECT 1;").toList) (-5) (by decide)).trans
    (by decide)

/-- C5: `containsLimitClause(q)` is true iff the comment-stripped,
upper-cased text of `q` contains the literal substring `" LIMIT "`; in
particular a `LIMIT` inside a block comment is not detected, and a
lower-case `limit` surrounded by spaces is. -/
theorem containsLimitClause_spec :
    (∀ q : Str, containsLimitClause q =
      goContains (goToUpper (removeComments q)) sLIMIT) ∧
    containsLimitClause (("SELECT * FROM t /* LIMIT 10 */").toList) = false ∧
    containsLimitClause (("select * from t limit 100").toList) = true :=
  ⟨fun _ => rfl, by decide, by decide⟩

/-- C6: `normalize(q)` trims surrounding whitespace, drops exactly one
trailing semicolon when present, and trims again; the result is a
contiguous substring of the input, so internal whitespace and letter
case are untouched.  The spec's two concrete examples hold. -/
theorem normalizeQuery_spec :
    (∀ q : Str, normalizeQuery q =
      goTrimSpace (specDropTerminator (goTrimSpace q))) ∧
    (∀ q : Str, normalizeQuery q <:+: q) ∧
    normalizeQuery (("  SELECT   1  ; ").toList) = (("SELECT   1").toList) ∧
    normalizeQuery ((";").toList) = [] := by
  refine ⟨fun q => rfl, ?_, by decide, by decide⟩
  intro q
  have h1 : goTrimSpace (specDropTerminator (goTrimSpace q)) <:+:
      specDropTerminator (goTrimSpace q) := goTrimSpace_infix _
  have h2 : specDropTerminator (goTrimSpace q) <+: goTrimSpace q :=
    specDropTerminator_prefix _
  have h3 : goTrimSpace q <:+: q := goTrimSpace_infix q
  have : normalizeQuery q = goTrimSpace (specDropTerminator (goTrimSpace q)) := rfl
  rw [this]
  exact (h1.trans h2.isInfix).trans h3

/-- C3: zero-column results are not errors.  Under the driver guarantee
that a statement producing no output columns also produces no row tuples,
`QueryData`'s result assembly returns `QueryResult{columns: [], rows: []}`
(taking no error path — the assembly below is the full success path), and
in every assembled result an empty column list implies an empty row
list. -/
theorem zeroColumnsNotError (columns : List ColumnInfo)
    (rawRows : List (List GoValue)) (hdriver : columns = [] → rawRows = []) :
    (columns = [] → processRows columns rawRows = ⟨[], []⟩) ∧
    ((processRows columns rawRows).columns = [] →
      (processRows columns rawRows).rows = []) := by
  constructor
  · rintro rfl
    rw [hdriver rfl]
    rfl
  · intro hc
    have h1 : columns = [] := hc
    rw [show (processRows columns rawRows).rows = rawRows.map (buildRow columns)
      from rfl, hdriver h1]
    rfl

/-- C3 witness: the zero-column assembly on the empty cursor. -/
theorem zeroColumnsNotError_witness :
    processRows [] [] = ⟨[], []⟩ :=
  (zeroColumnsNotError [] [] (fun _ => rfl)).1 rfl

/-- C2: row materialization is driven by the column's exact declared type
string.  Under the scan-stage typing guarantee `wellTypedSlot`: a
`String` column keeps its string, the `UInt…`/`Int…`/`Float…`/`Bool`
families keep their unsigned, signed, float and bool values,
`Date`/`DateTime` columns yield the RFC3339 rendering of their timestamp,
and every other declared type passes the raw value through with
post-processing — a byte buffer becomes a string; a non-empty sequence in
an array-classified column whose first element is a byte buffer is
converted element-wise to strings (byte buffers decoded, other elements
via the generic formatter); sequences in non-array columns, sequences
whose first element is not a byte buffer, empty sequences, and all other
values pass through unchanged. -/
theorem materializeDispatch (ct : Str) (ia : Bool) (v : GoValue)
    (hwt : wellTypedSlot ct v = true) :
    (ct = (("String").toList) →
      materializeValue ct ia v = v ∧ v.isVstr = true) ∧
    (isUintType ct = true →
      materializeValue ct ia v = v ∧ v.isVuint = true) ∧
    (isIntType ct = true →
      materializeValue ct ia v = v ∧ v.isVint = true) ∧
    (isFloatType ct = true →
      materializeValue ct ia v = v ∧ v.isVfloat = true) ∧
    (ct = (("Bool").toList) →
      materializeValue ct ia v = v ∧ v.isVbool = true) ∧
    (isDateType ct = true →
      ∃ t, v = .vtime t ∧ materializeValue ct ia v = .vstr (formatRFC3339 t)) ∧
    (isOtherType ct = true →
      (∀ bs, v = .vbytes bs →
        materializeValue ct ia v = .vstr (bytesToString bs)) ∧
      (∀ b rest, v = .varr (.vbytes b :: rest) → ia = true →
        materializeValue ct ia v =
          .varr ((GoValue.vbytes b :: rest).map stringifyItem)) ∧
      (∀ xs, v = .varr xs → ia = false → materializeValue ct ia v = .varr xs) ∧
      (v = .varr [] → materializeValue ct ia v = .varr []) ∧
      (∀ x xs, v = .varr (x :: xs) → x.isVbytes = false →
        materializeValue ct ia v = .varr (x :: xs)) ∧
      (v.isVbytes = false → v.isVarr = false → materializeValue ct ia v = v)) := by
  refine ⟨?_, ?_, ?_, ?_, ?_, ?_, ?_⟩
  · rintro rfl
    exact ⟨rfl, hwt⟩
  · intro h
    rcases (by simpa [isUintType] using h :
        ((ct = (("UInt8").toList) ∨ ct = (("UInt16").toList)) ∨
        ct = (("UInt32").toList)) ∨ ct = (("UInt64").toList)) with
      ((rfl | rfl) | rfl) | rfl <;> exact ⟨rfl, hwt⟩
  · intro h
    rcases (by simpa [isIntType] using h :
        ((ct = (("Int8").toList) ∨ ct = (("Int16").toList)) ∨
        ct = (("Int32").toList)) ∨ ct = (("Int64").toList)) with
      ((rfl | rfl) | rfl) | rfl <;> exact ⟨rfl, hwt⟩
  · intro h
    rcases (by simpa [isFloatType] using h :
        ct = (("Float32").toList) ∨ ct = (("Float64").toList)) with
      rfl | rfl <;> exact ⟨rfl, hwt⟩
  · rintro rfl
    exact ⟨rfl, hwt⟩
  · intro h
    rcases (by simpa [isDateType] using h :
        ct = (("Date").toList) ∨ ct = (("DateTime").toList)) with rfl | rfl <;>
      · have hv : v.isVtime = true := hwt
        cases v <;> simp [GoValue.isVtime] at hv
        exact ⟨_, rfl, rfl⟩
  · intro h
    have hne := (by simpa [isOtherType, Bool.not_eq_true', Bool.or_eq_false_iff,
        decide_eq_false_iff_not] using h :
      ((((¬ct = (("String").toList) ∧ isUintType ct = false) ∧
        isIntType ct = false) ∧ isFloatType ct = false) ∧
        ¬ct = (("Bool").toList)) ∧ isDateType ct = false)
    obtain ⟨⟨⟨⟨⟨h1, h2⟩, h3⟩, h4⟩, h5⟩, h6⟩ := hne
    have hdef : ∀ w : GoValue, materializeValue ct ia w =
        (match w with
        | .vbytes bs => .vstr (bytesToString bs)
        | .varr xs =>
            if ia then
              match xs with
              | .vbytes _ :: _ => .varr (xs.map stringifyItem)
              | _ => .varr xs
            else .varr xs
        | w => w) := by
      intro w
      unfold materializeValue
      rw [if_neg h1, if_neg (by simp [h2]), if_neg (by simp [h3]),
        if_neg (by simp [h4]), if_neg h5, if_neg (by simp [h6])]
    refine ⟨?_, ?_, ?_, ?_, ?_, ?_⟩
    · rintro bs rfl
      rw [hdef]
    · rintro b rest rfl rfl
      rw [hdef]
      rfl
    · rintro xs rfl rfl
      rw [hdef]
      rfl
    · rintro rfl
      rw [hdef]
      cases ia <;> rfl
    · rintro x xs rfl hx
      rw [hdef]
      cases ia
      · rfl
      · cases x <;> simp [GoValue.isVbytes] at hx ⊢
    · intro hb ha
      rw [hdef]
      cases v <;> simp [GoValue.isVbytes, GoValue.isVarr] at hb ha ⊢

/-- C2 witness: the dispatch evaluated on the spec's concrete examples —
a `UInt8` column carrying raw value 1 materializes to the unsigned
integer 1, and an `Array(String)` column carrying byte buffers
materializes to the decoded strings. -/
theorem materializeDispatch_witness :
    materializeValue (("UInt8").toList) false (.vuint 1) = .vuint 1 ∧
    materializeValue (("Array(String)").toList) true
        (.varr [.vbytes [104, 105], .vbytes [33]]) =
      .varr [.vstr (("hi").toList), .vstr (("!").toList)] :=
  ⟨((materializeDispatch (("UInt8").toList) false (.vuint 1) (by rfl)).2.1
      (by decide)).1,
    (((materializeDispatch (("Array(String)").toList) true
        (.varr [.vbytes [104, 105], .vbytes [33]]) (by rfl)).2.2.2.2.2.2
      (by decide)).2.1 [104, 105] [.vbytes [33]] rfl rfl).trans rfl⟩

end CHMCP
